import Mathlib

/-!
Shallow embedding of `scripts/roop_api.py` (sd-webui-roop).

The Python module is an HTTP adapter: it resolves two image sources
(URL / base64 payload / local path), maps request options onto the
external swap library's option record, invokes the swap, persists the
result and serialises it back.  Side effects (directory creation, file
writes, downloads, base64 decodes, renames, image saves) are recorded
in an explicit trace; the ambient world (filesystem, network, `imghdr`
sniffing, base64, clock, swap library, registries) is an abstract
environment `Env`.  Machine-level integers do not occur: Python ints
are unbounded, so `Nat`/`Int` model them exactly; bytes are `List Nat`.
-/

/-- One observable side effect of the adapter. -/
inductive Effect where
  | mkdir (dir : String)
  | download (url : String)
  | decode (payload : String)
  | write (path : String) (data : List Nat)
  | rename (src : String) (dst : String)
  | save (path : String)
  deriving DecidableEq, Repr

/-- Model of `class ImageSource(BaseModel)`: three optional fields. -/
structure ImageSource where
  image_url : Option String
  encoded_image : Option String
  image_filepath : Option String
  deriving DecidableEq, Repr

/-- Model of `class RequestUpscaleOptions(BaseModel)`; the two visibility fields are
floats that are only passed through, modelled as rationals. -/
structure RequestUpscaleOptions where
  scale : Int := 1
  upscaler_name : String := ""
  upscale_visibility : ℚ := 1
  face_restorer_name : String := "CodeFormer"
  restorer_visibility : ℚ := 1
  deriving DecidableEq, Repr

/-- Model of `class RoopOptions(BaseModel)`. -/
structure RoopOptions where
  task_id : String
  source_image : ImageSource
  swap_image : ImageSource
  face_index : Int := 0
  model : String := "roop/inswapper_128.onnx"
  upscale_options : RequestUpscaleOptions := {}
  deriving DecidableEq, Repr

/-- Model of `class RoopResponse(BaseModel)`. -/
structure RoopResponse where
  task_id : String
  encoded_image : String
  start_time : String
  finish_time : String
  deriving DecidableEq, Repr

/-- An entry of the host registry `shared.sd_upscalers` (only its `name`
attribute is consulted by this module). -/
structure UpscalerData where
  name : String
  deriving DecidableEq, Repr

/-- An entry of the host registry `shared.face_restorers` (only its `name()`
method is consulted by this module). -/
structure FaceRestoration where
  name : String
  deriving DecidableEq, Repr

/-- The swap library's `UpscaleOptions` record, as constructed by
`upscale_options`. -/
structure UpscaleOptions where
  scale : Int
  upscaler : Option UpscalerData
  face_restorer : Option FaceRestoration
  upscale_visibility : ℚ
  restorer_visibility : ℚ
  deriving DecidableEq, Repr

/-- The swap library's `ImageResult`; the module only calls `.image()`,
which may return `None`. -/
structure ImageResult (Img : Type) where
  image : Option Img

/-- Model of the `fastapi.HTTPException` values raised by this module. -/
structure HttpError where
  status_code : Nat
  detail : String
  deriving DecidableEq, Repr

/-- A UTC wall-clock reading (`datetime.now(timezone.utc)`), reduced to the
fields `strftime` consumes here. -/
structure DateTime where
  year : Nat
  month : Nat
  day : Nat
  hour : Nat
  minute : Nat
  second : Nat
  deriving DecidableEq, Repr

/-- Python truthiness of an `Optional[str]`: `None` and `""` are falsy. -/
def truthy : Option String → Bool
  | none => false
  | some s => s != ""

/-- Python `str.rfind` on a character list: index of the last occurrence,
`none` when absent (Python returns `-1`). -/
def rfindPos (cs : List Char) (c : Char) : Option Nat :=
  match cs with
  | [] => none
  | x :: xs =>
    match rfindPos xs c with
    | some i => some (i + 1)
    | none => if x = c then some 0 else none

/-- The index at which `posixpath.splitext` splits `p`, if it splits at all:
the last dot, provided it lies after the last separator and the basename is
not made of leading dots only. -/
def splitextIdx (p : List Char) : Option Nat :=
  match rfindPos p '.' with
  | none => none
  | some dotIndex =>
    let start := match rfindPos p '/' with
      | none => 0
      | some sepIndex => sepIndex + 1
    if start ≤ dotIndex then
      if (List.range p.length).any
          (fun i => decide (start ≤ i) && decide (i < dotIndex) && (p[i]? != some '.')) then
        some dotIndex
      else none
    else none

/-- Model of `os.path.splitext` (posix): split a path into root and extension. -/
def splitext (p : String) : String × String :=
  match splitextIdx p.data with
  | some i => (⟨p.data.take i⟩, ⟨p.data.drop i⟩)
  | none => (p, "")

/-- A zero-padded two-digit `strftime` field (`%m`, `%d`, `%H`, `%M`, `%S`). -/
def pad2 (n : Nat) : String :=
  if n < 10 then "0" ++ Nat.repr n else Nat.repr n

/-- The `strftime` field `%Y`, zero-padded to four digits (years below 10000). -/
def pad4 (n : Nat) : String :=
  pad2 (n / 100) ++ pad2 (n % 100)

/-- Model of `start_time.strftime("%Y-%m-%d")`. -/
def dateStr (d : DateTime) : String :=
  pad4 d.year ++ "-" ++ pad2 d.month ++ "-" ++ pad2 d.day

/-- Model of `strftime("%Y-%m-%dT%H:%M:%SZ")`. -/
def timestampStr (d : DateTime) : String :=
  dateStr d ++ "T" ++ pad2 d.hour ++ ":" ++ pad2 d.minute ++ ":" ++ pad2 d.second ++ "Z"

/-- The ambient world the module runs in: per-caller private directory,
filesystem-existence snapshot, base64 codec, `imghdr.what` content sniffing,
HTTP fetching, `uuid4`, the two clock readings, the host registries, and the
external swap library.  `Img` is the type of decoded (PIL) images. -/
structure Env (Img : Type) where
  private_outdir : String
  fsExists : String → Bool
  b64decode : String → List Nat
  what : List Nat → Option String
  httpGet : String → List Nat
  uuid4 : String
  now1 : DateTime
  now2 : DateTime
  sd_upscalers : List UpscalerData
  face_restorers : List FaceRestoration
  openImage : String → Img
  swap_face : Img → Img → String → List Int → UpscaleOptions → ImageResult Img
  pngBytes : Img → List Nat
  b64encode : List Nat → String

/-- Model of `download_image(url, output_path)`: fetch, write, sniff the written
content with `imghdr.what`, and rename when the extension disagrees with a
determined (truthy) image type.  Returns the final path and the effects. -/
def download_image {Img : Type} (env : Env Img) (url : String) (output_path : String) :
    String × List Effect :=
  let content := env.httpGet url
  let image_type := env.what content
  let base_ext := splitext output_path
  match image_type with
  | some t =>
    if t != "" && base_ext.2.drop 1 != t then
      let correct_output_path := base_ext.1 ++ "." ++ t
      (correct_output_path,
        [.download url, .write output_path content, .rename output_path correct_output_path])
    else (output_path, [.download url, .write output_path content])
  | none => (output_path, [.download url, .write output_path content])

/-- Model of `upscaler(upscaler_name)`: first registry entry with that exact name. -/
def upscaler (sd_upscalers : List UpscalerData) (upscaler_name : String) :
    Option UpscalerData :=
  match sd_upscalers with
  | [] => none
  | upscaler_item :: rest =>
    if upscaler_item.name = upscaler_name then some upscaler_item
    else upscaler rest upscaler_name

/-- Model of `face_restorer(face_restorer_name)`: first registry entry with that exact
name. -/
def face_restorer (face_restorers : List FaceRestoration) (face_restorer_name : String) :
    Option FaceRestoration :=
  match face_restorers with
  | [] => none
  | fr :: rest =>
    if fr.name = face_restorer_name then some fr
    else face_restorer rest face_restorer_name

/-- Model of `upscale_options(roop_options)`: look both names up in the host
registries and build the swap library's option record. -/
def upscale_options (sd_upscalers : List UpscalerData)
    (face_restorers : List FaceRestoration) (roop_options : RoopOptions) :
    UpscaleOptions :=
  { scale := roop_options.upscale_options.scale,
    upscaler := upscaler sd_upscalers roop_options.upscale_options.upscaler_name,
    face_restorer := face_restorer face_restorers roop_options.upscale_options.face_restorer_name,
    upscale_visibility := roop_options.upscale_options.upscale_visibility,
    restorer_visibility := roop_options.upscale_options.restorer_visibility }

/-- Model of `get_private_path(request, folder, filename)`: the per-caller private
path `<private_outdir>/roop/<folder>/<filename>`, creating the directory
when absent. -/
def get_private_path {Img : Type} (env : Env Img) (folder : String) (filename : String) :
    String × List Effect :=
  let private_dir := env.private_outdir ++ "/roop/" ++ folder
  ((private_dir ++ "/" ++ filename),
    if env.fsExists private_dir then [] else [Effect.mkdir private_dir])

/-- The filename chosen inside `download_image_if_needed`: the supplied one
when truthy, else a fresh `uuid4`. -/
def resolved_filename {Img : Type} (env : Env Img) (filename : Option String) : String :=
  match filename with
  | some f => if f != "" then f else env.uuid4
  | none => env.uuid4

/-- Model of `download_image_if_needed(request, image_source, folder, filename)`.
Returns the effect trace together with the outcome (a local path, or the
`HTTPException` raised). -/
def download_image_if_needed {Img : Type} (env : Env Img) (image_source : ImageSource)
    (folder : String) (filename : Option String) :
    List Effect × Except HttpError String :=
  if image_source.image_url = none ∧ image_source.encoded_image = none ∧
      image_source.image_filepath = none then
    ([], .error ⟨400, "image_url, encoded_image, image_filepath at least one is required"⟩)
  else if truthy image_source.image_filepath &&
      env.fsExists (image_source.image_filepath.getD "") then
    ([], .ok (image_source.image_filepath.getD ""))
  else
    let image_name := resolved_filename env filename
    let gp := get_private_path env ("source/" ++ folder) image_name
    let source_image_path := gp.1
    if truthy image_source.encoded_image then
      let enc := image_source.encoded_image.getD ""
      let decoded_image := env.b64decode enc
      let final_path := match env.what decoded_image with
        | some file_type => source_image_path ++ "." ++ file_type
        | none => source_image_path
      (gp.2 ++ [.decode enc, .write final_path decoded_image], .ok final_path)
    else if truthy image_source.image_url then
      let di := download_image env (image_source.image_url.getD "") source_image_path
      (gp.2 ++ di.2, .ok di.1)
    else
      (gp.2, .error ⟨400, "Process image failed"⟩)

/-- The path the encoded-image branch of `download_image_if_needed` writes
to and returns: the private destination path, with `.<type>` appended when
`imghdr` determines the decoded payload's type. -/
def b64_target_path {Img : Type} (env : Env Img) (folder : String)
    (filename : Option String) (payload : String) : String :=
  let source_image_path :=
    (get_private_path env ("source/" ++ folder) (resolved_filename env filename)).1
  match env.what (env.b64decode payload) with
  | some file_type => source_image_path ++ "." ++ file_type
  | none => source_image_path

/-- Model of `pil_image_to_base64(image)`: PNG-encode and wrap in a data URI. -/
def pil_image_to_base64 {Img : Type} (env : Env Img) (image : Img) : String :=
  "data:image/png;base64," ++ env.b64encode (env.pngBytes image)

/-- Model of `run_roop_on_single_image(request, roop_options)`: the request handler.
Returns the effect trace together with the outcome. -/
def run_roop_on_single_image {Img : Type} (env : Env Img) (roop_options : RoopOptions) :
    List Effect × Except HttpError RoopResponse :=
  let start_time := env.now1
  let utc_date_str := dateStr start_time
  let task_id := roop_options.task_id
  let r1 := download_image_if_needed env roop_options.source_image
    ("face/" ++ utc_date_str) (some task_id)
  match r1.2 with
  | .error e => (r1.1, .error e)
  | .ok face_image =>
    let r2 := download_image_if_needed env roop_options.swap_image
      ("swap/" ++ utc_date_str) (some task_id)
    match r2.2 with
    | .error e => (r1.1 ++ r2.1, .error e)
    | .ok swap_image =>
      let result := env.swap_face (env.openImage face_image) (env.openImage swap_image)
        roop_options.model [roop_options.face_index]
        (upscale_options env.sd_upscalers env.face_restorers roop_options)
      match result.image with
      | none => (r1.1 ++ r2.1, .error ⟨400, "Roop process image failed"⟩)
      | some result_image =>
        let gp := get_private_path env ("output/" ++ utc_date_str) (task_id ++ ".png")
        let finish_time := env.now2
        (r1.1 ++ r2.1 ++ gp.2 ++ [.save gp.1],
          .ok { task_id := task_id,
                encoded_image := pil_image_to_base64 env result_image,
                start_time := timestampStr start_time,
                finish_time := timestampStr finish_time })

/-- The file/directory paths an effect touches on the local filesystem. -/
def Effect.touches : Effect → List String
  | .mkdir dir => [dir]
  | .download _ => []
  | .decode _ => []
  | .write path _ => [path]
  | .rename src dst => [src, dst]
  | .save path => [path]

/-- The paths a trace touches. -/
def touchedPaths (effs : List Effect) : List String :=
  effs.foldr (fun e acc => e.touches ++ acc) []

/-- The paths at which a trace creates or renames a file (directory creation
excluded). -/
def writtenFiles (effs : List Effect) : List String :=
  effs.foldr
    (fun e acc =>
      match e with
      | .write path _ => path :: acc
      | .rename _ dst => dst :: acc
      | .save path => path :: acc
      | _ => acc)
    []

/-- Field ranges of a real `datetime.now(timezone.utc)` reading (years are
four-digit). -/
def DateTime.Valid (d : DateTime) : Prop :=
  d.year < 10000 ∧ 1 ≤ d.month ∧ d.month ≤ 12 ∧ 1 ≤ d.day ∧ d.day ≤ 31 ∧
    d.hour < 24 ∧ d.minute < 60 ∧ d.second < 60

/-- Chronological order on clock readings (field-lexicographic). -/
def DateTime.le (a b : DateTime) : Prop :=
  a.year < b.year ∨ (a.year = b.year ∧
    (a.month < b.month ∨ (a.month = b.month ∧
      (a.day < b.day ∨ (a.day = b.day ∧
        (a.hour < b.hour ∨ (a.hour = b.hour ∧
          (a.minute < b.minute ∨ (a.minute = b.minute ∧
            a.second ≤ b.second)))))))))

/-- The shape `YYYY-MM-DDTHH:MM:SSZ`: twenty characters, digits in the date
and time fields, the literal separators in between. -/
def timestampFormatOk (s : String) : Bool :=
  match s.data with
  | [y1, y2, y3, y4, q1, mo1, mo2, q2, d1, d2, qt, h1, h2, q3, mi1, mi2, q4, s1, s2, qz] =>
    y1.isDigit && y2.isDigit && y3.isDigit && y4.isDigit && q1 == '-' &&
      mo1.isDigit && mo2.isDigit && q2 == '-' && d1.isDigit && d2.isDigit &&
      qt == 'T' && h1.isDigit && h2.isDigit && q3 == ':' && mi1.isDigit &&
      mi2.isDigit && q4 == ':' && s1.isDigit && s2.isDigit && qz == 'Z'
  | _ => false

/-- A concrete world used to exercise the theorems on closed inputs: the
payload `"UE5H"` decodes to bytes sniffed as `png`, every other payload to
bytes `imghdr` cannot identify; downloads always yield the png bytes; one
upscaler and one face restorer are registered; the swap succeeds. -/
def sampleEnv : Env Unit where
  private_outdir := "/data"
  fsExists := fun p => p == "/imgs/face.png"
  b64decode := fun s => if s == "UE5H" then [137, 80] else [255]
  what := fun bs => if bs == [137, 80] then some "png" else none
  httpGet := fun _ => [137, 80]
  uuid4 := "123e4567-uuid"
  now1 := ⟨2026, 10, 12, 8, 30, 0⟩
  now2 := ⟨2026, 10, 12, 8, 30, 5⟩
  sd_upscalers := [⟨"ESRGAN 4x"⟩]
  face_restorers := [⟨"CodeFormer"⟩]
  openImage := fun _ => ()
  swap_face := fun _ _ _ _ _ => ⟨some ()⟩
  pngBytes := fun _ => [137, 80, 78, 71]
  b64encode := fun bs => if bs == [137, 80, 78, 71] then "iVBORw" else "QQ"

/-- Like `sampleEnv`, but the swap library finds no face and yields no image. -/
def swapNoneEnv : Env Unit :=
  { sampleEnv with swap_face := fun _ _ _ _ _ => ⟨none⟩ }

/-- The chunks of a path between `/` separators (the character-level split
that underlies `PurePosixPath` parsing; empty chunks mark doubled or
leading/trailing separators). -/
def splitSlash (cs : List Char) : List (List Char) :=
  match cs with
  | [] => [[]]
  | c :: rest =>
    let r := splitSlash rest
    if c = '/' then [] :: r
    else
      match r with
      | [] => [[c]]
      | h :: t2 => (c :: h) :: t2

/-- The root of a POSIX path as `PurePosixPath` parses it: `"//"` for
exactly two leading slashes, `"/"` for one or three-plus, `""` for a
relative path. -/
def pathRoot (s : String) : String :=
  match s.data with
  | [] => ""
  | c :: rest =>
    if c = '/' then
      match rest with
      | [] => "/"
      | c2 :: rest2 =>
        if c2 = '/' then
          match rest2 with
          | [] => "//"
          | c3 :: _ => if c3 = '/' then "/" else "//"
        else "/"
    else ""

/-- The components of a POSIX path as `PurePosixPath` parses it: the
slash-separated chunks with empty and `"."` chunks dropped. -/
def pathParts (s : String) : List String :=
  ((splitSlash s.data).map (fun l => (⟨l⟩ : String))).filter
    (fun c => c != "" && c != ".")

/-- Model of pathlib's `/` join on POSIX paths, as used by
`private_dir / filename` in `get_private_path`: a right operand with a root
replaces the base entirely; otherwise its components (doubled slashes and
`"."` collapsed away) are appended to the base. -/
def pathJoin (base child : String) : String :=
  if pathRoot child = "" then
    match pathParts child with
    | [] => base
    | parts => base ++ "/" ++ String.intercalate "/" parts
  else
    pathRoot child ++ String.intercalate "/" (pathParts child)

/-! ## Registry lookup lemmas -/

theorem upscaler_eq_none (reg : List UpscalerData) (n : String)
    (h : ∀ u ∈ reg, u.name ≠ n) : upscaler reg n = none := by
  induction reg with
  | nil => rfl
  | cons hd tl ih =>
    rw [upscaler, if_neg (h hd (by simp))]
    exact ih fun u hu => h u (by simp [hu])

theorem upscaler_finds (reg : List UpscalerData) (n : String)
    (h : ∃ u ∈ reg, u.name = n) :
    ∃ u, upscaler reg n = some u ∧ u ∈ reg ∧ u.name = n := by
  induction reg with
  | nil => rcases h with ⟨u, hu, _⟩; cases hu
  | cons hd tl ih =>
    by_cases hh : hd.name = n
    · exact ⟨hd, by rw [upscaler, if_pos hh], by simp, hh⟩
    · rcases h with ⟨u, hu, hn⟩
      rcases List.mem_cons.mp hu with rfl | hmem
      · exact absurd hn hh
      · rcases ih ⟨u, hmem, hn⟩ with ⟨u', h1, h2, h3⟩
        exact ⟨u', by rw [upscaler, if_neg hh]; exact h1, by simp [h2], h3⟩

theorem face_restorer_eq_none (reg : List FaceRestoration) (n : String)
    (h : ∀ r ∈ reg, r.name ≠ n) : face_restorer reg n = none := by
  induction reg with
  | nil => rfl
  | cons hd tl ih =>
    rw [face_restorer, if_neg (h hd (by simp))]
    exact ih fun r hr => h r (by simp [hr])

theorem face_restorer_finds (reg : List FaceRestoration) (n : String)
    (h : ∃ r ∈ reg, r.name = n) :
    ∃ r, face_restorer reg n = some r ∧ r ∈ reg ∧ r.name = n := by
  induction reg with
  | nil => rcases h with ⟨r, hr, _⟩; cases hr
  | cons hd tl ih =>
    by_cases hh : hd.name = n
    · exact ⟨hd, by rw [face_restorer, if_pos hh], by simp, hh⟩
    · rcases h with ⟨r, hr, hn⟩
      rcases List.mem_cons.mp hr with rfl | hmem
      · exact absurd hn hh
      · rcases ih ⟨r, hmem, hn⟩ with ⟨r', h1, h2, h3⟩
        exact ⟨r', by rw [face_restorer, if_neg hh]; exact h1, by simp [h2], h3⟩

/-! ## Claim theorems: option mapper and `download_image` -/

/-- C7: an upscaler or face-restorer name with no exact match in the host
registry makes the option mapper put `none` in that slot (no error is
possible: the mapper is total); a name with an exact match selects a
matching registry entry. -/
theorem option_mapper_lookup (regU : List UpscalerData) (regF : List FaceRestoration)
    (o : RoopOptions) :
    ((∀ u ∈ regU, u.name ≠ o.upscale_options.upscaler_name) →
        (upscale_options regU regF o).upscaler = none)
  ∧ ((∃ u ∈ regU, u.name = o.upscale_options.upscaler_name) →
        ∃ u, (upscale_options regU regF o).upscaler = some u ∧ u ∈ regU ∧
          u.name = o.upscale_options.upscaler_name)
  ∧ ((∀ r ∈ regF, r.name ≠ o.upscale_options.face_restorer_name) →
        (upscale_options regU regF o).face_restorer = none)
  ∧ ((∃ r ∈ regF, r.name = o.upscale_options.face_restorer_name) →
        ∃ r, (upscale_options regU regF o).face_restorer = some r ∧ r ∈ regF ∧
          r.name = o.upscale_options.face_restorer_name) := by
  refine ⟨fun h => ?_, fun h => ?_, fun h => ?_, fun h => ?_⟩
  · exact upscaler_eq_none regU _ h
  · exact upscaler_finds regU _ h
  · exact face_restorer_eq_none regF _ h
  · exact face_restorer_finds regF _ h

theorem option_mapper_lookup_witness :
    ((upscale_options [⟨"ESRGAN 4x"⟩] [⟨"CodeFormer"⟩]
        { task_id := "t1", source_image := ⟨none, some "UE5H", none⟩,
          swap_image := ⟨none, some "UE5H", none⟩,
          upscale_options := { upscaler_name := "missing", face_restorer_name := "missing" } }).upscaler = none)
  ∧ ∃ u, (upscale_options [⟨"ESRGAN 4x"⟩] [⟨"CodeFormer"⟩]
        { task_id := "t1", source_image := ⟨none, some "UE5H", none⟩,
          swap_image := ⟨none, some "UE5H", none⟩,
          upscale_options := { upscaler_name := "ESRGAN 4x", face_restorer_name := "CodeFormer" } }).upscaler = some u ∧
      u ∈ [(⟨"ESRGAN 4x"⟩ : UpscalerData)] ∧ u.name = "ESRGAN 4x" := by
  constructor
  · exact (option_mapper_lookup [⟨"ESRGAN 4x"⟩] [⟨"CodeFormer"⟩] _).1 (by decide)
  · exact (option_mapper_lookup [⟨"ESRGAN 4x"⟩] [⟨"CodeFormer"⟩] _).2.1 ⟨⟨"ESRGAN 4x"⟩, by decide⟩

/-- C10 (implicit): when `imghdr` cannot determine the downloaded content's
type, `download_image` raises nothing and returns the original output path
unchanged, with no rename. -/
theorem download_unknown_type_keeps_path {Img : Type} (env : Env Img)
    (url output_path : String) (hs : env.what (env.httpGet url) = none) :
    download_image env url output_path =
      (output_path, [.download url, .write output_path (env.httpGet url)]) := by
  simp [download_image, hs]

theorem download_unknown_type_keeps_path_witness :
    download_image sampleEnv "http://example.com/a" "/data/noext" =
      ("/data/noext.png", [.download "http://example.com/a", .write "/data/noext" [137, 80],
        .rename "/data/noext" "/data/noext.png"]) ∨
    download_image { sampleEnv with httpGet := fun _ => [255] } "http://example.com/a" "/data/noext" =
      ("/data/noext", [.download "http://example.com/a", .write "/data/noext" [255]]) := by
  exact Or.inr (download_unknown_type_keeps_path
    { sampleEnv with httpGet := fun _ => [255] } "http://example.com/a" "/data/noext" rfl)

/-- C6: when the sniffed type of the downloaded content is determined and
differs from the destination's current extension (in particular when there
is no extension), `download_image` renames the file to `<root>.<type>` and
returns the renamed path; when the extension already matches, the original
path is returned with no rename. -/
theorem download_extension_fix {Img : Type} (env : Env Img) (url output_path t : String)
    (hs : env.what (env.httpGet url) = some t) (ht : t ≠ "") :
    ((splitext output_path).2.drop 1 ≠ t →
        download_image env url output_path =
          ((splitext output_path).1 ++ "." ++ t,
            [.download url, .write output_path (env.httpGet url),
              .rename output_path ((splitext output_path).1 ++ "." ++ t)]))
  ∧ ((splitext output_path).2.drop 1 = t →
        download_image env url output_path =
          (output_path, [.download url, .write output_path (env.httpGet url)])) := by
  constructor
  · intro hd
    simp [download_image, hs, ht, hd]
  · intro hd
    simp [download_image, hs, hd]

theorem download_extension_fix_witness :
    (("jpg" : String) ≠ "png" ∧
      download_image sampleEnv "http://example.com/a" "/data/img.jpg" =
        ("/data/img.png", [.download "http://example.com/a", .write "/data/img.jpg" [137, 80],
          .rename "/data/img.jpg" "/data/img.png"]))
  ∧ download_image sampleEnv "http://example.com/a" "/data/img.png" =
      ("/data/img.png", [.download "http://example.com/a", .write "/data/img.png" [137, 80]]) := by
  refine ⟨⟨by decide, ?_⟩, ?_⟩
  · exact (download_extension_fix sampleEnv "http://example.com/a" "/data/img.jpg" "png"
      rfl (by decide)).1 (by decide)
  · exact (download_extension_fix sampleEnv "http://example.com/a" "/data/img.png" "png"
      rfl (by decide)).2 (by decide)

/-- C3: a source with all three fields absent is rejected with the
invalid-request 400 before any effect at all (empty trace: no network
request, no filesystem write, no swap call). -/
theorem all_none_invalid_request {Img : Type} (env : Env Img) (folder : String)
    (filename : Option String) :
    download_image_if_needed env ⟨none, none, none⟩ folder filename =
      ([], .error ⟨400, "image_url, encoded_image, image_filepath at least one is required"⟩) := by
  rfl

/-! ## Claim theorems: resolver precedence and the base64 branch -/

/-- C1: resolver precedence.  (1) A set (non-empty) `image_filepath` naming
an existing file is returned verbatim with an empty trace: no directory
creation, no write, no decode, no download.  (2) Otherwise a set (non-empty)
`encoded_image` takes the base64 branch — decode and write, no download —
even when `image_url` is also set.  (3) Only when neither applies is the
URL downloaded. -/
theorem resolver_precedence {Img : Type} (env : Env Img) (src : ImageSource)
    (folder : String) (filename : Option String) :
    (∀ fp, src.image_filepath = some fp → fp ≠ "" → env.fsExists fp = true →
        download_image_if_needed env src folder filename = ([], .ok fp))
  ∧ (∀ payload, (truthy src.image_filepath = false ∨
          env.fsExists (src.image_filepath.getD "") = false) →
        src.encoded_image = some payload → payload ≠ "" →
        download_image_if_needed env src folder filename =
          ((get_private_path env ("source/" ++ folder) (resolved_filename env filename)).2 ++
              [.decode payload,
               .write (b64_target_path env folder filename payload) (env.b64decode payload)],
            .ok (b64_target_path env folder filename payload)))
  ∧ (∀ u, (truthy src.image_filepath = false ∨
          env.fsExists (src.image_filepath.getD "") = false) →
        truthy src.encoded_image = false → src.image_url = some u → u ≠ "" →
        download_image_if_needed env src folder filename =
          ((get_private_path env ("source/" ++ folder) (resolved_filename env filename)).2 ++
              (download_image env u
                (get_private_path env ("source/" ++ folder) (resolved_filename env filename)).1).2,
            .ok (download_image env u
              (get_private_path env ("source/" ++ folder) (resolved_filename env filename)).1).1)) := by
  refine ⟨?_, ?_, ?_⟩
  · intro fp hfp hne hex
    have hcond : ¬ (src.image_url = none ∧ src.encoded_image = none ∧
        src.image_filepath = none) := by
      rintro ⟨-, -, h⟩; rw [hfp] at h; cases h
    have hfile : (truthy src.image_filepath &&
        env.fsExists (src.image_filepath.getD "")) = true := by
      rw [hfp]; simp [truthy, hne, hex]
    rw [download_image_if_needed, if_neg hcond, if_pos hfile, hfp]
    rfl
  · intro payload hfb henc hpl
    have hcond : ¬ (src.image_url = none ∧ src.encoded_image = none ∧
        src.image_filepath = none) := by
      rintro ⟨-, h, -⟩; rw [henc] at h; cases h
    have hfb' : ¬ ((truthy src.image_filepath &&
        env.fsExists (src.image_filepath.getD "")) = true) := by
      rcases hfb with h | h <;> simp [h]
    rw [download_image_if_needed, if_neg hcond, if_neg hfb']
    simp only [henc, Option.getD_some]
    rw [if_pos (show truthy (some payload) = true by simp [truthy, hpl])]
    simp only [b64_target_path]
  · intro u hfb hencf hurl hu
    have hcond : ¬ (src.image_url = none ∧ src.encoded_image = none ∧
        src.image_filepath = none) := by
      rintro ⟨h, -, -⟩; rw [hurl] at h; cases h
    have hfb' : ¬ ((truthy src.image_filepath &&
        env.fsExists (src.image_filepath.getD "")) = true) := by
      rcases hfb with h | h <;> simp [h]
    rw [download_image_if_needed, if_neg hcond, if_neg hfb']
    simp only [hencf, Bool.false_eq_true, if_false, hurl, Option.getD_some]
    rw [if_pos (show truthy (some u) = true by simp [truthy, hu])]

theorem resolver_precedence_witness :
    download_image_if_needed sampleEnv ⟨some "http://u", some "UE5H", some "/imgs/face.png"⟩
        "face/2026-10-12" (some "t1") = ([], .ok "/imgs/face.png")
  ∧ download_image_if_needed sampleEnv ⟨some "http://u", some "UE5H", none⟩
        "face/2026-10-12" (some "t1") =
      ([.mkdir "/data/roop/source/face/2026-10-12", .decode "UE5H",
        .write "/data/roop/source/face/2026-10-12/t1.png" [137, 80]],
       .ok "/data/roop/source/face/2026-10-12/t1.png")
  ∧ download_image_if_needed sampleEnv ⟨some "http://u", none, none⟩
        "face/2026-10-12" (some "t1") =
      ([.mkdir "/data/roop/source/face/2026-10-12", .download "http://u",
        .write "/data/roop/source/face/2026-10-12/t1" [137, 80],
        .rename "/data/roop/source/face/2026-10-12/t1" "/data/roop/source/face/2026-10-12/t1.png"],
       .ok "/data/roop/source/face/2026-10-12/t1.png") := by
  refine ⟨(resolver_precedence sampleEnv _ _ _).1 "/imgs/face.png" rfl (by decide) rfl,
    ?_, ?_⟩
  · exact ((resolver_precedence sampleEnv ⟨some "http://u", some "UE5H", none⟩
      "face/2026-10-12" (some "t1")).2.1 "UE5H" (Or.inl rfl) rfl (by decide)).trans (by rfl)
  · exact ((resolver_precedence sampleEnv ⟨some "http://u", none, none⟩
      "face/2026-10-12" (some "t1")).2.2 "http://u" (Or.inl rfl) rfl rfl (by decide)).trans
      (by rfl)

/-- C5: on the encoded-image branch, exactly one file is written, its bytes
are exactly the base64-decoded payload, and the written path — which is also
the returned path — is the destination with `.<sniffed-type>` appended when
the type is determined, and the bare destination otherwise. -/
theorem encoded_branch_roundtrip {Img : Type} (env : Env Img) (src : ImageSource)
    (folder : String) (filename : Option String) (payload : String)
    (hfb : truthy src.image_filepath = false ∨
      env.fsExists (src.image_filepath.getD "") = false)
    (henc : src.encoded_image = some payload) (hpl : payload ≠ "") :
    writtenFiles (download_image_if_needed env src folder filename).1 =
        [b64_target_path env folder filename payload]
  ∧ Effect.write (b64_target_path env folder filename payload) (env.b64decode payload) ∈
        (download_image_if_needed env src folder filename).1
  ∧ (download_image_if_needed env src folder filename).2 =
        .ok (b64_target_path env folder filename payload)
  ∧ (∀ t, env.what (env.b64decode payload) = some t →
        b64_target_path env folder filename payload =
          (get_private_path env ("source/" ++ folder) (resolved_filename env filename)).1
            ++ "." ++ t)
  ∧ (env.what (env.b64decode payload) = none →
        b64_target_path env folder filename payload =
          (get_private_path env ("source/" ++ folder) (resolved_filename env filename)).1) := by
  have h := (resolver_precedence env src folder filename).2.1 payload hfb henc hpl
  rw [h]
  refine ⟨?_, ?_, rfl, ?_, ?_⟩
  · cases he : env.fsExists (env.private_outdir ++ "/roop/" ++ ("source/" ++ folder)) <;>
      simp [get_private_path, writtenFiles, he]
  · simp
  · intro t ht; simp [b64_target_path, ht]
  · intro ht; simp [b64_target_path, ht]

theorem encoded_branch_roundtrip_witness :
    writtenFiles (download_image_if_needed sampleEnv ⟨none, some "UE5H", none⟩
        "face/2026-10-12" (some "t1")).1 = ["/data/roop/source/face/2026-10-12/t1.png"]
  ∧ Effect.write "/data/roop/source/face/2026-10-12/t1.png" [137, 80] ∈
      (download_image_if_needed sampleEnv ⟨none, some "UE5H", none⟩
        "face/2026-10-12" (some "t1")).1 := by
  have h := encoded_branch_roundtrip sampleEnv ⟨none, some "UE5H", none⟩
    "face/2026-10-12" (some "t1") "UE5H" (Or.inl rfl) rfl (by decide)
  have hp : b64_target_path sampleEnv "face/2026-10-12" (some "t1") "UE5H" =
      "/data/roop/source/face/2026-10-12/t1.png" := by rfl
  have hb : sampleEnv.b64decode "UE5H" = [137, 80] := by rfl
  refine ⟨?_, ?_⟩
  · have h1 := h.1
    rw [hp] at h1
    exact h1
  · have h2 := h.2.1
    rw [hp, hb] at h2
    exact h2

/-! ## Claim C4: missing vs empty source fields -/

/-- C4 counterexample: a source whose `image_url` is the empty string (and
whose other fields are `None`) is *not* rejected with the
`"... at least one is required"` detail; it falls through to the final
`"Process image failed"` 400 instead. -/
theorem empty_source_wrong_detail_cex :
    (download_image_if_needed sampleEnv ⟨some "", none, none⟩
        "face/2026-10-12" (some "t1")).2 = .error ⟨400, "Process image failed"⟩
  ∧ "Process image failed" ≠ "image_url, encoded_image, image_filepath at least one is required" := by
  exact ⟨rfl, by decide⟩

/-- C4 as amended: a source each of whose fields is missing or empty always
fails with an HTTP 400, but the detail is the invalid-request
`"... at least one is required"` message only when all three fields are
`None`; when at least one field is present-but-empty the raised 400 carries
`"Process image failed"`. -/
theorem empty_or_missing_source_http400 {Img : Type} (env : Env Img) (folder : String)
    (filename : Option String) (src : ImageSource)
    (h1 : src.image_url = none ∨ src.image_url = some "")
    (h2 : src.encoded_image = none ∨ src.encoded_image = some "")
    (h3 : src.image_filepath = none ∨ src.image_filepath = some "") :
    (download_image_if_needed env src folder filename).2 =
      .error (if src.image_url = none ∧ src.encoded_image = none ∧ src.image_filepath = none
        then ⟨400, "image_url, encoded_image, image_filepath at least one is required"⟩
        else ⟨400, "Process image failed"⟩) := by
  obtain ⟨u, e, f⟩ := src
  rcases h1 with h1 | h1 <;> rcases h2 with h2 | h2 <;> rcases h3 with h3 | h3 <;>
    subst h1 <;> subst h2 <;> subst h3 <;>
    simp [download_image_if_needed, truthy, get_private_path]

theorem empty_or_missing_source_http400_witness :
    (download_image_if_needed sampleEnv ⟨none, some "", some ""⟩
        "swap/2026-10-12" (some "t1")).2 = .error ⟨400, "Process image failed"⟩ := by
  have h := empty_or_missing_source_http400 sampleEnv "swap/2026-10-12" (some "t1")
    ⟨none, some "", some ""⟩ (Or.inl rfl) (Or.inr rfl) (Or.inr rfl)
  simpa using h

/-! ## Path-shape lemmas for the effect traces -/

theorem rfindPos_ge (cs : List Char) (c : Char) :
    ∀ i, cs[i]? = some c → ∃ j, rfindPos cs c = some j ∧ i ≤ j := by
  induction cs with
  | nil => intro i h; simp at h
  | cons x xs ih =>
    intro i h
    cases i with
    | zero =>
      simp at h
      subst h
      rw [rfindPos]
      cases hr : rfindPos xs x with
      | some k => exact ⟨k + 1, rfl, Nat.zero_le _⟩
      | none => exact ⟨0, by simp, Nat.le_refl 0⟩
    | succ n =>
      simp only [List.getElem?_cons_succ] at h
      obtain ⟨j, hj, hij⟩ := ih n h
      rw [rfindPos, hj]
      exact ⟨j + 1, rfl, Nat.succ_le_succ hij⟩

theorem rfindPos_spec (cs : List Char) (c : Char) :
    ∀ j, rfindPos cs c = some j → cs[j]? = some c := by
  induction cs with
  | nil => intro j h; simp [rfindPos] at h
  | cons x xs ih =>
    intro j h
    rw [rfindPos] at h
    cases hr : rfindPos xs c with
    | some k =>
      rw [hr] at h
      cases h
      simpa using ih k hr
    | none =>
      rw [hr] at h
      by_cases hx : x = c
      · rw [if_pos hx] at h
        cases h
        simpa using hx
      · rw [if_neg hx] at h
        cases h

theorem splitextIdx_gt_sep (p : List Char) (i : Nat) (h : splitextIdx p = some i) :
    ∀ k, p[k]? = some '/' → k < i := by
  intro k hk
  rw [splitextIdx] at h
  cases hdot : rfindPos p '.' with
  | none => rw [hdot] at h; cases h
  | some di =>
    rw [hdot] at h
    obtain ⟨si, hsi, hksi⟩ := rfindPos_ge p '/' k hk
    rw [hsi] at h
    simp only at h
    by_cases hle : si + 1 ≤ di
    · rw [if_pos hle] at h
      have : i = di := by
        by_cases hany : ((List.range p.length).any
            (fun j => decide (si + 1 ≤ j) && decide (j < di) && (p[j]? != some '.'))) = true
        · rw [if_pos hany] at h; cases h; rfl
        · rw [if_neg hany] at h; cases h
      omega
    · rw [if_neg hle] at h; cases h

theorem splitext_root_extends (S T : String) :
    ∃ r : String, (splitext (S ++ "/" ++ T)).1 = S ++ "/" ++ r := by
  have hdata : (S ++ "/" ++ T).data = S.data ++ '/' :: T.data := by
    simp [String.data_append]
  rw [splitext]
  cases hidx : splitextIdx (S ++ "/" ++ T).data with
  | none => exact ⟨T, rfl⟩
  | some i =>
    have hslash : (S ++ "/" ++ T).data[S.data.length]? = some '/' := by
      rw [hdata, List.getElem?_append_right (Nat.le_refl _)]
      simp
    have hgt : S.data.length < i := splitextIdx_gt_sep _ i hidx _ hslash
    refine ⟨⟨T.data.take (i - S.data.length - 1)⟩, ?_⟩
    simp only
    apply String.ext
    simp only [String.data_append, hdata]
    rw [List.take_append_eq_append_take, List.take_of_length_le (by omega)]
    have : i - S.data.length = (i - S.data.length - 1) + 1 := by omega
    rw [this]
    simp [String.data_append]

theorem roop_source_path (priv folder : String) :
    priv ++ "/roop/" ++ ("source/" ++ folder) = priv ++ "/roop/source/" ++ folder := by
  rw [String.append_assoc priv "/roop/", ← String.append_assoc "/roop/" "source/" folder,
    ← String.append_assoc]
  rfl

theorem roop_source_path_extend (priv folder x : String) :
    priv ++ "/roop/" ++ ("source/" ++ folder) ++ x =
      priv ++ "/roop/source/" ++ (folder ++ x) := by
  rw [roop_source_path, String.append_assoc]

theorem touchedPaths_append (a b : List Effect) :
    touchedPaths (a ++ b) = touchedPaths a ++ touchedPaths b := by
  induction a with
  | nil => simp [touchedPaths]
  | cons e rest ih =>
    simp only [List.cons_append, touchedPaths, List.foldr_cons] at *
    rw [ih, List.append_assoc]

theorem writtenFiles_append (a b : List Effect) :
    writtenFiles (a ++ b) = writtenFiles a ++ writtenFiles b := by
  induction a with
  | nil => simp [writtenFiles]
  | cons e rest ih =>
    simp only [List.cons_append, writtenFiles, List.foldr_cons] at *
    cases e <;> simp only [ih] <;> rfl

theorem source_form_extend (priv x y : String)
    (hx : ∃ r, x = priv ++ "/roop/source/" ++ r) :
    ∃ r, x ++ y = priv ++ "/roop/source/" ++ r := by
  obtain ⟨r, rfl⟩ := hx
  exact ⟨r ++ y, by rw [String.append_assoc]⟩

theorem download_image_touches {Img : Type} (env : Env Img) (url P : String) :
    ∀ p ∈ touchedPaths (download_image env url P).2,
      p = P ∨ ∃ t, p = (splitext P).1 ++ "." ++ t := by
  intro p hp
  cases hw : env.what (env.httpGet url) with
  | none =>
    simp [download_image, hw, touchedPaths, Effect.touches] at hp
    exact Or.inl hp
  | some t =>
    by_cases hc : (t != "" && (splitext P).2.drop 1 != t) = true
    · simp [download_image, hw, hc, touchedPaths, Effect.touches] at hp
      rcases hp with hp | hp
      · exact Or.inl hp
      · exact Or.inr ⟨t, hp⟩
    · simp [download_image, hw, hc, touchedPaths, Effect.touches] at hp
      exact Or.inl hp

theorem diin_touches_source {Img : Type} (env : Env Img) (src : ImageSource)
    (folder : String) (filename : Option String) :
    ∀ p ∈ touchedPaths (download_image_if_needed env src folder filename).1,
      ∃ r, p = env.private_outdir ++ "/roop/source/" ++ r := by
  intro p hp
  have hdir : ∀ y, env.private_outdir ++ "/roop/" ++ ("source/" ++ folder) ++ y =
      env.private_outdir ++ "/roop/source/" ++ (folder ++ y) :=
    fun y => roop_source_path_extend env.private_outdir folder y
  by_cases hc1 : (src.image_url = none ∧ src.encoded_image = none ∧
      src.image_filepath = none)
  · rw [download_image_if_needed, if_pos hc1] at hp
    simp [touchedPaths] at hp
  · by_cases hc2 : (truthy src.image_filepath &&
        env.fsExists (src.image_filepath.getD "")) = true
    · rw [download_image_if_needed, if_neg hc1, if_pos hc2] at hp
      simp [touchedPaths] at hp
    · rw [download_image_if_needed, if_neg hc1, if_neg hc2] at hp
      simp only at hp
      have hmk : ∀ q ∈ touchedPaths (get_private_path env ("source/" ++ folder)
          (resolved_filename env filename)).2,
          ∃ r, q = env.private_outdir ++ "/roop/source/" ++ r := by
        intro q hq
        by_cases he : env.fsExists (env.private_outdir ++ "/roop/" ++ ("source/" ++ folder)) = true
        · simp [get_private_path, he, touchedPaths, Effect.touches] at hq
        · simp [get_private_path, he, touchedPaths, Effect.touches] at hq
          exact ⟨folder, by rw [hq, roop_source_path]⟩
      have hgp1 : ∃ r, (get_private_path env ("source/" ++ folder)
          (resolved_filename env filename)).1 = env.private_outdir ++ "/roop/source/" ++ r := by
        rw [get_private_path]
        exact ⟨folder ++ ("/" ++ resolved_filename env filename),
          by rw [String.append_assoc _ "/", hdir]⟩
      by_cases hc3 : truthy src.encoded_image = true
      · rw [if_pos hc3] at hp
        rw [touchedPaths_append] at hp
        rcases List.mem_append.mp hp with hp | hp
        · exact hmk p hp
        · simp [touchedPaths, Effect.touches] at hp
          rw [hp]
          cases hw : env.what (env.b64decode (src.encoded_image.getD "")) with
          | none => simpa [hw] using hgp1
          | some t =>
            simp only [hw]
            exact source_form_extend _ _ _ (source_form_extend _ _ _ hgp1)
      · rw [if_neg hc3] at hp
        by_cases hc4 : truthy src.image_url = true
        · rw [if_pos hc4] at hp
          rw [touchedPaths_append] at hp
          rcases List.mem_append.mp hp with hp | hp
          · exact hmk p hp
          · rcases download_image_touches env (src.image_url.getD "")
                (get_private_path env ("source/" ++ folder) (resolved_filename env filename)).1
                p hp with hp' | ⟨t, hp'⟩
            · rw [hp']; exact hgp1
            · rw [hp']
              have hsp : ∃ r1, (splitext ((get_private_path env ("source/" ++ folder)
                  (resolved_filename env filename)).1)).1 =
                  env.private_outdir ++ "/roop/source/" ++ r1 := by
                obtain ⟨r2, hr2⟩ := splitext_root_extends
                  (env.private_outdir ++ "/roop/" ++ ("source/" ++ folder))
                  (resolved_filename env filename)
                rw [get_private_path]
                simp only
                rw [hr2]
                exact ⟨folder ++ ("/" ++ r2), by rw [String.append_assoc _ "/", hdir]⟩
              exact source_form_extend _ _ _ (source_form_extend _ _ _ hsp)
        · rw [if_neg hc4] at hp
          exact hmk p hp

theorem source_ne_output (priv a b : String) :
    priv ++ "/roop/source/" ++ a ≠ priv ++ "/roop/output/" ++ b := by
  intro h
  have hd := congrArg String.data h
  simp only [String.data_append, List.append_assoc] at hd
  have hk := List.append_cancel_left hd
  have h6 := congrArg (fun l => l[6]?) hk
  simp only at h6
  rw [List.getElem?_append_left (by decide : 6 < ("/roop/source/" : String).data.length),
    List.getElem?_append_left (by decide : 6 < ("/roop/output/" : String).data.length)] at h6
  have hs : (("/roop/source/" : String).data)[6]? = some 's' := rfl
  have ho : (("/roop/output/" : String).data)[6]? = some 'o' := rfl
  rw [hs, ho] at h6
  cases h6

/-- C2: when the swap operation yields no result image, the handler raises
the HTTP 400 processing-failure error; the trace is exactly the two source
resolutions' effects, so no output file is saved and no path under the
caller's `roop/output/` area is created, written or renamed. -/
theorem swap_none_error_no_output {Img : Type} (env : Env Img) (o : RoopOptions)
    (f s : String) (e1 e2 : List Effect)
    (h1 : download_image_if_needed env o.source_image ("face/" ++ dateStr env.now1)
      (some o.task_id) = (e1, .ok f))
    (h2 : download_image_if_needed env o.swap_image ("swap/" ++ dateStr env.now1)
      (some o.task_id) = (e2, .ok s))
    (hswap : (env.swap_face (env.openImage f) (env.openImage s) o.model [o.face_index]
      (upscale_options env.sd_upscalers env.face_restorers o)).image = none) :
    run_roop_on_single_image env o = (e1 ++ e2, .error ⟨400, "Roop process image failed"⟩)
  ∧ ∀ p ∈ touchedPaths (e1 ++ e2),
      ¬ ∃ rest, p = env.private_outdir ++ "/roop/output/" ++ rest := by
  constructor
  · rw [run_roop_on_single_image]
    simp only [h1, h2, hswap]
  · intro p hp
    rintro ⟨rest, hrest⟩
    rw [touchedPaths_append] at hp
    rcases List.mem_append.mp hp with hp | hp
    · have he1 : e1 = (download_image_if_needed env o.source_image
          ("face/" ++ dateStr env.now1) (some o.task_id)).1 := by rw [h1]
      obtain ⟨r, hr⟩ := diin_touches_source env o.source_image
        ("face/" ++ dateStr env.now1) (some o.task_id) p (he1 ▸ hp)
      exact source_ne_output env.private_outdir r rest (hr.symm.trans hrest)
    · have he2 : e2 = (download_image_if_needed env o.swap_image
          ("swap/" ++ dateStr env.now1) (some o.task_id)).1 := by rw [h2]
      obtain ⟨r, hr⟩ := diin_touches_source env o.swap_image
        ("swap/" ++ dateStr env.now1) (some o.task_id) p (he2 ▸ hp)
      exact source_ne_output env.private_outdir r rest (hr.symm.trans hrest)

theorem swap_none_error_no_output_witness :
    run_roop_on_single_image swapNoneEnv
      { task_id := "t1", source_image := ⟨none, some "UE5H", none⟩,
        swap_image := ⟨none, some "UE5H", none⟩ } =
      ([.mkdir "/data/roop/source/face/2026-10-12", .decode "UE5H",
        .write "/data/roop/source/face/2026-10-12/t1.png" [137, 80],
        .mkdir "/data/roop/source/swap/2026-10-12", .decode "UE5H",
        .write "/data/roop/source/swap/2026-10-12/t1.png" [137, 80]],
       .error ⟨400, "Roop process image failed"⟩) := by
  exact (swap_none_error_no_output swapNoneEnv
    { task_id := "t1", source_image := ⟨none, some "UE5H", none⟩,
      swap_image := ⟨none, some "UE5H", none⟩ }
    "/data/roop/source/face/2026-10-12/t1.png" "/data/roop/source/swap/2026-10-12/t1.png"
    [.mkdir "/data/roop/source/face/2026-10-12", .decode "UE5H",
      .write "/data/roop/source/face/2026-10-12/t1.png" [137, 80]]
    [.mkdir "/data/roop/source/swap/2026-10-12", .decode "UE5H",
      .write "/data/roop/source/swap/2026-10-12/t1.png" [137, 80]]
    rfl rfl rfl).1

/-! ## Timestamp formatting and ordering -/

theorem str_lex_of_lt {s t : String} (h : s < t) :
    List.Lex (fun a b : Char => a < b) s.data t.data :=
  String.lt_iff_toList_lt.mp h

theorem str_lt_of_lex {s t : String}
    (h : List.Lex (fun a b : Char => a < b) s.data t.data) : s < t :=
  String.lt_iff_toList_lt.mpr h

theorem lex_append_right_len {a b : List Char}
    (h : List.Lex (fun x y : Char => x < y) a b) :
    a.length = b.length → ∀ c d : List Char,
      List.Lex (fun x y : Char => x < y) (a ++ c) (b ++ d) := by
  induction h with
  | nil => intro hlen; simp at hlen
  | rel hab => intro hlen c d; exact List.Lex.rel hab
  | cons h ih =>
    intro hlen c d
    exact List.Lex.cons (ih (by simpa using hlen) c d)

theorem lex_append_left_any (a : List Char) {c d : List Char}
    (h : List.Lex (fun x y : Char => x < y) c d) :
    List.Lex (fun x y : Char => x < y) (a ++ c) (a ++ d) := by
  induction a with
  | nil => exact h
  | cons x xs ih => exact List.Lex.cons ih

theorem str_chunk_lt {p1 p2 s1 s2 : String} (hlen : p1.length = p2.length)
    (h : p1 < p2 ∨ (p1 = p2 ∧ s1 < s2)) : p1 ++ s1 < p2 ++ s2 := by
  apply str_lt_of_lex
  rw [String.data_append, String.data_append]
  rcases h with h | ⟨rfl, h⟩
  · exact lex_append_right_len (str_lex_of_lt h) hlen _ _
  · exact lex_append_left_any _ (str_lex_of_lt h)

theorem str_chunk_le {p1 p2 s1 s2 : String} (hlen : p1.length = p2.length)
    (h : p1 < p2 ∨ (p1 = p2 ∧ (s1 < s2 ∨ s1 = s2))) :
    p1 ++ s1 < p2 ++ s2 ∨ p1 ++ s1 = p2 ++ s2 := by
  rcases h with h | ⟨rfl, h | rfl⟩
  · exact Or.inl (str_chunk_lt hlen (Or.inl h))
  · exact Or.inl (str_chunk_lt hlen (Or.inr ⟨rfl, h⟩))
  · exact Or.inr rfl

set_option maxRecDepth 10000 in
theorem pad2_length : ∀ n < 100, (pad2 n).length = 2 := by decide

set_option maxRecDepth 10000 in
theorem pad2_lex : ∀ n < 100, ∀ m < 100, n < m →
    List.Lex (fun a b : Char => a < b) (pad2 n).data (pad2 m).data := by decide

set_option maxRecDepth 10000 in
theorem pad2_digits : ∀ n < 100,
    (pad2 n).data.length = 2 ∧ (pad2 n).data.all Char.isDigit := by decide

theorem pad2_lt (n : Nat) (hn : n < 100) (m : Nat) (hm : m < 100) (h : n < m) :
    pad2 n < pad2 m :=
  str_lt_of_lex (pad2_lex n hn m hm h)

theorem pad2_chain {n m : Nat} (hn : n < 100) (hm : m < 100) {s1 s2 : String}
    (h : n < m ∨ (n = m ∧ (s1 < s2 ∨ s1 = s2))) :
    pad2 n ++ s1 < pad2 m ++ s2 ∨ pad2 n ++ s1 = pad2 m ++ s2 := by
  rcases h with h | ⟨rfl, h⟩
  · exact Or.inl (str_chunk_lt (by rw [pad2_length n hn, pad2_length m hm])
      (Or.inl (pad2_lt n hn m hm h)))
  · exact str_chunk_le rfl (Or.inr ⟨rfl, h⟩)

theorem sep_chain (sep : String) {s1 s2 : String} (h : s1 < s2 ∨ s1 = s2) :
    sep ++ s1 < sep ++ s2 ∨ sep ++ s1 = sep ++ s2 :=
  str_chunk_le rfl (Or.inr ⟨rfl, h⟩)

theorem pad4_length (n : Nat) (hn : n < 10000) : (pad4 n).length = 4 := by
  have h1 := pad2_length (n / 100) (by omega)
  have h2 := pad2_length (n % 100) (by omega)
  simp [pad4, String.length_append, h1, h2]

theorem pad4_lt (n : Nat) (hn : n < 10000) (m : Nat) (hm : m < 10000) (h : n < m) :
    pad4 n < pad4 m := by
  rcases Nat.lt_or_ge (n / 100) (m / 100) with hd | hd
  · exact str_chunk_lt
      (by rw [pad2_length _ (by omega : n / 100 < 100), pad2_length _ (by omega : m / 100 < 100)])
      (Or.inl (pad2_lt _ (by omega) _ (by omega) hd))
  · have hdiv : n / 100 = m / 100 := by omega
    have hmod : n % 100 < m % 100 := by omega
    exact str_chunk_lt
      (by rw [pad2_length _ (by omega : n / 100 < 100), pad2_length _ (by omega : m / 100 < 100)])
      (Or.inr ⟨by rw [hdiv], pad2_lt _ (by omega) _ (by omega) hmod⟩)

theorem pad4_chain {n m : Nat} (hn : n < 10000) (hm : m < 10000) {s1 s2 : String}
    (h : n < m ∨ (n = m ∧ (s1 < s2 ∨ s1 = s2))) :
    pad4 n ++ s1 < pad4 m ++ s2 ∨ pad4 n ++ s1 = pad4 m ++ s2 := by
  rcases h with h | ⟨rfl, h⟩
  · exact Or.inl (str_chunk_lt (by rw [pad4_length n hn, pad4_length m hm])
      (Or.inl (pad4_lt n hn m hm h)))
  · exact str_chunk_le rfl (Or.inr ⟨rfl, h⟩)

theorem timestampStr_assoc (d : DateTime) :
    timestampStr d =
      pad4 d.year ++ ("-" ++ (pad2 d.month ++ ("-" ++ (pad2 d.day ++ ("T" ++ (pad2 d.hour ++
        (":" ++ (pad2 d.minute ++ (":" ++ (pad2 d.second ++ "Z")))))))))) := by
  simp [timestampStr, dateStr, String.append_assoc]

/-- Monotone clock readings produce (lexicographically) ordered timestamp
strings. -/
theorem timestampStr_mono (a b : DateTime) (ha : a.Valid) (hb : b.Valid)
    (hab : DateTime.le a b) :
    timestampStr a < timestampStr b ∨ timestampStr a = timestampStr b := by
  obtain ⟨hy, hmo1, hmo2, hd1, hd2, hh, hmi, hs⟩ := ha
  obtain ⟨hy', hmo1', hmo2', hd1', hd2', hh', hmi', hs'⟩ := hb
  rw [timestampStr_assoc a, timestampStr_assoc b]
  rcases hab with h | ⟨he, hab⟩
  · exact pad4_chain hy hy' (Or.inl h)
  refine pad4_chain hy hy' (Or.inr ⟨he, ?_⟩)
  refine sep_chain "-" ?_
  rcases hab with h | ⟨he2, hab⟩
  · exact pad2_chain (by omega) (by omega) (Or.inl h)
  refine pad2_chain (by omega) (by omega) (Or.inr ⟨he2, ?_⟩)
  refine sep_chain "-" ?_
  rcases hab with h | ⟨he3, hab⟩
  · exact pad2_chain (by omega) (by omega) (Or.inl h)
  refine pad2_chain (by omega) (by omega) (Or.inr ⟨he3, ?_⟩)
  refine sep_chain "T" ?_
  rcases hab with h | ⟨he4, hab⟩
  · exact pad2_chain (by omega) (by omega) (Or.inl h)
  refine pad2_chain (by omega) (by omega) (Or.inr ⟨he4, ?_⟩)
  refine sep_chain ":" ?_
  rcases hab with h | ⟨he5, hab⟩
  · exact pad2_chain (by omega) (by omega) (Or.inl h)
  refine pad2_chain (by omega) (by omega) (Or.inr ⟨he5, ?_⟩)
  refine sep_chain ":" ?_
  rcases Nat.lt_or_ge a.second b.second with h | h
  · exact pad2_chain (by omega) (by omega) (Or.inl h)
  · have : a.second = b.second := by omega
    exact pad2_chain (by omega) (by omega) (Or.inr ⟨this, Or.inr rfl⟩)

theorem pad2_two_digits (n : Nat) (hn : n < 100) :
    ∃ c1 c2, (pad2 n).data = [c1, c2] ∧ c1.isDigit = true ∧ c2.isDigit = true := by
  obtain ⟨hlen, hall⟩ := pad2_digits n hn
  obtain ⟨c1, c2, hc⟩ := List.length_eq_two.mp hlen
  rw [hc] at hall
  simp only [List.all_cons, List.all_nil, Bool.and_true, Bool.and_eq_true] at hall
  exact ⟨c1, c2, hc, hall.1, hall.2⟩

theorem timestampStr_data (d : DateTime) :
    (timestampStr d).data =
      (pad2 (d.year / 100)).data ++ (pad2 (d.year % 100)).data ++ '-' ::
        ((pad2 d.month).data ++ '-' :: ((pad2 d.day).data ++ 'T' ::
          ((pad2 d.hour).data ++ ':' :: ((pad2 d.minute).data ++ ':' ::
            ((pad2 d.second).data ++ ['Z']))))) := by
  have hdash : ("-" : String).data = ['-'] := rfl
  have ht : ("T" : String).data = ['T'] := rfl
  have hcolon : (":" : String).data = [':'] := rfl
  have hz : ("Z" : String).data = ['Z'] := rfl
  simp [timestampStr, dateStr, pad4, String.data_append, hdash, ht, hcolon, hz]

theorem timestampFormatOk_of_valid (d : DateTime) (hd : d.Valid) :
    timestampFormatOk (timestampStr d) = true := by
  obtain ⟨hy, hmo1, hmo2, hd1, hd2, hh, hmi, hs⟩ := hd
  obtain ⟨y1, y2, hyd, hy1, hy2⟩ := pad2_two_digits (d.year / 100) (by omega)
  obtain ⟨y3, y4, hyd', hy3, hy4⟩ := pad2_two_digits (d.year % 100) (by omega)
  obtain ⟨m1, m2, hmd, hm1, hm2⟩ := pad2_two_digits d.month (by omega)
  obtain ⟨dd1, dd2, hdd, hdd1, hdd2⟩ := pad2_two_digits d.day (by omega)
  obtain ⟨h1, h2, hhd, hh1, hh2⟩ := pad2_two_digits d.hour (by omega)
  obtain ⟨mi1, mi2, hmid, hmi1, hmi2⟩ := pad2_two_digits d.minute (by omega)
  obtain ⟨s1, s2, hsd, hs1, hs2⟩ := pad2_two_digits d.second (by omega)
  have hdata := timestampStr_data d
  rw [hyd, hyd', hmd, hdd, hhd, hmid, hsd] at hdata
  rw [timestampFormatOk, hdata]
  simp [hy1, hy2, hy3, hy4, hm1, hm2, hdd1, hdd2, hh1, hh2, hmi1, hmi2, hs1, hs2]

/-- C8: on a successful request the response echoes the request's task id,
its `encoded_image` is the string `"data:image/png;base64,"` followed by the
base64 PNG encoding of the result image, both timestamps are the two clock
readings formatted as `YYYY-MM-DDTHH:MM:SSZ`, and — the clock being
monotone — `finish_time ≥ start_time` (start read before resolution/swap,
finish after the output file is saved). -/
theorem handler_success_response {Img : Type} (env : Env Img) (o : RoopOptions)
    (f s : String) (e1 e2 : List Effect) (img : Img)
    (h1 : download_image_if_needed env o.source_image ("face/" ++ dateStr env.now1)
      (some o.task_id) = (e1, .ok f))
    (h2 : download_image_if_needed env o.swap_image ("swap/" ++ dateStr env.now1)
      (some o.task_id) = (e2, .ok s))
    (hswap : (env.swap_face (env.openImage f) (env.openImage s) o.model [o.face_index]
      (upscale_options env.sd_upscalers env.face_restorers o)).image = some img)
    (hv1 : env.now1.Valid) (hv2 : env.now2.Valid) (hmono : DateTime.le env.now1 env.now2) :
    run_roop_on_single_image env o =
      (e1 ++ e2 ++
        (get_private_path env ("output/" ++ dateStr env.now1) (o.task_id ++ ".png")).2 ++
        [.save (get_private_path env ("output/" ++ dateStr env.now1) (o.task_id ++ ".png")).1],
       .ok { task_id := o.task_id,
             encoded_image := "data:image/png;base64," ++ env.b64encode (env.pngBytes img),
             start_time := timestampStr env.now1,
             finish_time := timestampStr env.now2 })
  ∧ timestampFormatOk (timestampStr env.now1) = true
  ∧ timestampFormatOk (timestampStr env.now2) = true
  ∧ timestampStr env.now1 ≤ timestampStr env.now2 := by
  refine ⟨?_, timestampFormatOk_of_valid _ hv1, timestampFormatOk_of_valid _ hv2, ?_⟩
  · rw [run_roop_on_single_image]
    simp only [h1, h2, hswap, pil_image_to_base64]
  · rcases timestampStr_mono env.now1 env.now2 hv1 hv2 hmono with h | h
    · exact le_of_lt h
    · exact le_of_eq h

theorem handler_success_response_witness :
    run_roop_on_single_image sampleEnv
      { task_id := "t1", source_image := ⟨none, some "UE5H", none⟩,
        swap_image := ⟨none, some "UE5H", none⟩ } =
      ([.mkdir "/data/roop/source/face/2026-10-12", .decode "UE5H",
        .write "/data/roop/source/face/2026-10-12/t1.png" [137, 80],
        .mkdir "/data/roop/source/swap/2026-10-12", .decode "UE5H",
        .write "/data/roop/source/swap/2026-10-12/t1.png" [137, 80],
        .mkdir "/data/roop/output/2026-10-12", .save "/data/roop/output/2026-10-12/t1.png"],
       .ok { task_id := "t1", encoded_image := "data:image/png;base64,iVBORw",
             start_time := "2026-10-12T08:30:00Z", finish_time := "2026-10-12T08:30:05Z" })
  ∧ timestampFormatOk "2026-10-12T08:30:00Z" = true
  ∧ timestampFormatOk "2026-10-12T08:30:05Z" = true
  ∧ ("2026-10-12T08:30:00Z" : String) ≤ "2026-10-12T08:30:05Z" := by
  have h := handler_success_response sampleEnv
    { task_id := "t1", source_image := ⟨none, some "UE5H", none⟩,
      swap_image := ⟨none, some "UE5H", none⟩ }
    "/data/roop/source/face/2026-10-12/t1.png" "/data/roop/source/swap/2026-10-12/t1.png"
    [.mkdir "/data/roop/source/face/2026-10-12", .decode "UE5H",
      .write "/data/roop/source/face/2026-10-12/t1.png" [137, 80]]
    [.mkdir "/data/roop/source/swap/2026-10-12", .decode "UE5H",
      .write "/data/roop/source/swap/2026-10-12/t1.png" [137, 80]]
    () rfl rfl rfl (by unfold DateTime.Valid; decide) (by unfold DateTime.Valid; decide)
    (by unfold DateTime.le; decide)
  exact ⟨h.1.trans (by rfl), h.2.1, h.2.2.1, h.2.2.2⟩

/-! ## Written-path characterization for distinct task ids -/

theorem splitext_clean (S T : String) (hT : ∀ c ∈ T.data, c ≠ '.') :
    splitext (S ++ "/" ++ T) = (S ++ "/" ++ T, "") := by
  have hdata : (S ++ "/" ++ T).data = S.data ++ '/' :: T.data := by
    simp [String.data_append]
  rw [splitext]
  suffices h : splitextIdx (S ++ "/" ++ T).data = none by rw [h]
  rw [splitextIdx]
  cases hdot : rfindPos (S ++ "/" ++ T).data '.' with
  | none => rfl
  | some di =>
    simp only
    have hdi := rfindPos_spec _ '.' di hdot
    have hdiS : di < S.data.length := by
      by_contra hge
      push_neg at hge
      rw [hdata, List.getElem?_append_right hge] at hdi
      rcases Nat.eq_or_lt_of_le hge with heq | hlt
      · rw [heq, Nat.sub_self] at hdi
        simp at hdi
      · have hstep : di - S.data.length = (di - S.data.length - 1) + 1 := by omega
        rw [hstep] at hdi
        simp only [List.getElem?_cons_succ] at hdi
        obtain ⟨hlt2, hget⟩ := List.getElem?_eq_some_iff.mp hdi
        exact hT _ (hget ▸ List.getElem_mem hlt2) rfl
    have hslash : (S ++ "/" ++ T).data[S.data.length]? = some '/' := by
      rw [hdata, List.getElem?_append_right (Nat.le_refl _)]
      simp
    obtain ⟨si, hsi, hges⟩ := rfindPos_ge _ '/' _ hslash
    rw [hsi]
    simp [show ¬ (si + 1 ≤ di) from by omega]

theorem download_image_writes {Img : Type} (env : Env Img) (url P : String) :
    ∀ p ∈ writtenFiles (download_image env url P).2,
      p = P ∨ ∃ ty, p = (splitext P).1 ++ "." ++ ty := by
  intro p hp
  cases hw : env.what (env.httpGet url) with
  | none =>
    simp [download_image, hw, writtenFiles] at hp
    exact Or.inl hp
  | some t =>
    by_cases hc : (t != "" && (splitext P).2.drop 1 != t) = true
    · simp [download_image, hw, hc, writtenFiles] at hp
      rcases hp with hp | hp
      · exact Or.inl hp
      · exact Or.inr ⟨t, hp⟩
    · simp [download_image, hw, hc, writtenFiles] at hp
      exact Or.inl hp

theorem diin_writes_form {Img : Type} (env : Env Img) (src : ImageSource)
    (folder t : String) (ht : t ≠ "") (hclean : ∀ c ∈ t.data, c ≠ '.') :
    ∀ p ∈ writtenFiles (download_image_if_needed env src folder (some t)).1,
      ∃ e, (e = "" ∨ ∃ x, e = "." ++ x) ∧
        p = env.private_outdir ++ "/roop/source/" ++ (folder ++ ("/" ++ (t ++ e))) := by
  intro p hp
  have hname : resolved_filename env (some t) = t := by
    simp [resolved_filename, ht]
  have hdir : ∀ y, env.private_outdir ++ "/roop/" ++ ("source/" ++ folder) ++ y =
      env.private_outdir ++ "/roop/source/" ++ (folder ++ y) :=
    fun y => roop_source_path_extend env.private_outdir folder y
  have hgp1 : (get_private_path env ("source/" ++ folder) (resolved_filename env (some t))).1 =
      env.private_outdir ++ "/roop/source/" ++ (folder ++ ("/" ++ t)) := by
    rw [get_private_path, hname]
    simp only
    rw [String.append_assoc _ "/", hdir]
  have hgpw : writtenFiles (get_private_path env ("source/" ++ folder)
      (resolved_filename env (some t))).2 = [] := by
    rw [get_private_path]
    by_cases he : env.fsExists (env.private_outdir ++ "/roop/" ++ ("source/" ++ folder)) = true <;>
      simp [he, writtenFiles]
  by_cases hc1 : (src.image_url = none ∧ src.encoded_image = none ∧
      src.image_filepath = none)
  · rw [download_image_if_needed, if_pos hc1] at hp
    simp [writtenFiles] at hp
  · by_cases hc2 : (truthy src.image_filepath &&
        env.fsExists (src.image_filepath.getD "")) = true
    · rw [download_image_if_needed, if_neg hc1, if_pos hc2] at hp
      simp [writtenFiles] at hp
    · rw [download_image_if_needed, if_neg hc1, if_neg hc2] at hp
      simp only at hp
      by_cases hc3 : truthy src.encoded_image = true
      · rw [if_pos hc3] at hp
        rw [writtenFiles_append, hgpw] at hp
        simp [writtenFiles] at hp
        rw [hp]
        cases hw : env.what (env.b64decode (src.encoded_image.getD "")) with
        | none =>
          refine ⟨"", Or.inl rfl, ?_⟩
          simp only [hw]
          rw [hgp1, String.append_empty]
        | some ft =>
          refine ⟨"." ++ ft, Or.inr ⟨ft, rfl⟩, ?_⟩
          simp only [hw]
          rw [hgp1]
          simp [String.append_assoc]
      · rw [if_neg hc3] at hp
        by_cases hc4 : truthy src.image_url = true
        · rw [if_pos hc4] at hp
          rw [writtenFiles_append, hgpw] at hp
          simp only [List.nil_append] at hp
          rcases download_image_writes env (src.image_url.getD "")
              (get_private_path env ("source/" ++ folder) (resolved_filename env (some t))).1
              p hp with hp' | ⟨ty, hp'⟩
          · refine ⟨"", Or.inl rfl, ?_⟩
            rw [hp', hgp1, String.append_empty]
          · refine ⟨"." ++ ty, Or.inr ⟨ty, rfl⟩, ?_⟩
            have hsplit : (splitext ((get_private_path env ("source/" ++ folder)
                (resolved_filename env (some t))).1)).1 =
                (get_private_path env ("source/" ++ folder) (resolved_filename env (some t))).1 := by
              rw [get_private_path, hname]
              simp only
              rw [splitext_clean _ _ hclean]
            rw [hp', hsplit, hgp1]
            simp [String.append_assoc]
        · rw [if_neg hc4] at hp
          rw [hgpw] at hp
          simp at hp

theorem str_append_left_cancel {a b c : String} (h : a ++ b = a ++ c) : b = c := by
  apply String.ext
  have hd := congrArg String.data h
  rw [String.data_append, String.data_append] at hd
  exact List.append_cancel_left hd

theorem ne_append_append (x K1 K2 r1 r2 : String) (i : Nat)
    (hi1 : i < K1.data.length) (hi2 : i < K2.data.length)
    (hne : K1.data[i]? ≠ K2.data[i]?) : x ++ K1 ++ r1 ≠ x ++ K2 ++ r2 := by
  intro h
  have hd := congrArg String.data h
  simp only [String.data_append, List.append_assoc] at hd
  have hk := List.append_cancel_left hd
  have hi := congrArg (fun l => l[i]?) hk
  simp only at hi
  rw [List.getElem?_append_left hi1, List.getElem?_append_left hi2] at hi
  exact hne hi

theorem takeWhile_all {l : List Char} (h : ∀ c ∈ l, c ≠ '.') :
    List.takeWhile (fun c => c != '.') l = l := by
  induction l with
  | nil => rfl
  | cons x xs ih =>
    rw [List.takeWhile_cons]
    rw [if_pos (by simpa using h x (by simp))]
    rw [ih fun c hc => h c (by simp [hc])]

theorem takeWhile_append_all {l e : List Char} (h : ∀ c ∈ l, c ≠ '.') :
    List.takeWhile (fun c => c != '.') (l ++ e) =
      l ++ List.takeWhile (fun c => c != '.') e := by
  induction l with
  | nil => rfl
  | cons x xs ih =>
    rw [List.cons_append, List.takeWhile_cons]
    rw [if_pos (by simpa using h x (by simp))]
    rw [ih fun c hc => h c (by simp [hc]), List.cons_append]

theorem stem_eq {t1 t2 e1 e2 : String}
    (hc1 : ∀ c ∈ t1.data, c ≠ '.') (hc2 : ∀ c ∈ t2.data, c ≠ '.')
    (he1 : e1 = "" ∨ ∃ x, e1 = "." ++ x) (he2 : e2 = "" ∨ ∃ x, e2 = "." ++ x)
    (h : t1 ++ e1 = t2 ++ e2) : t1 = t2 := by
  have hdrop : ∀ (e : String), (e = "" ∨ ∃ x, e = "." ++ x) →
      List.takeWhile (fun c => c != '.') e.data = [] := by
    rintro e (rfl | ⟨x, rfl⟩)
    · rfl
    · have : ("." ++ x : String).data = '.' :: x.data := by
        simp [String.data_append]
      rw [this, List.takeWhile_cons]
      rw [if_neg (by simp)]
  have hd := congrArg String.data h
  rw [String.data_append, String.data_append] at hd
  have htw := congrArg (List.takeWhile (fun c => c != '.')) hd
  rw [takeWhile_append_all hc1, takeWhile_append_all hc2, hdrop e1 he1, hdrop e2 he2,
    List.append_nil, List.append_nil] at htw
  exact String.ext htw

theorem run_trace_cases {Img : Type} (env : Env Img) (o : RoopOptions) :
    (run_roop_on_single_image env o).1 =
      (download_image_if_needed env o.source_image ("face/" ++ dateStr env.now1)
        (some o.task_id)).1
  ∨ (run_roop_on_single_image env o).1 =
      (download_image_if_needed env o.source_image ("face/" ++ dateStr env.now1)
        (some o.task_id)).1 ++
      (download_image_if_needed env o.swap_image ("swap/" ++ dateStr env.now1)
        (some o.task_id)).1
  ∨ (run_roop_on_single_image env o).1 =
      (download_image_if_needed env o.source_image ("face/" ++ dateStr env.now1)
        (some o.task_id)).1 ++
      (download_image_if_needed env o.swap_image ("swap/" ++ dateStr env.now1)
        (some o.task_id)).1 ++
      (get_private_path env ("output/" ++ dateStr env.now1) (o.task_id ++ ".png")).2 ++
      [.save (get_private_path env ("output/" ++ dateStr env.now1) (o.task_id ++ ".png")).1] := by
  simp only [run_roop_on_single_image]
  split
  · exact Or.inl rfl
  · split
    · exact Or.inr (Or.inl rfl)
    · split
      · exact Or.inr (Or.inl rfl)
      · exact Or.inr (Or.inr rfl)

theorem run_writes_form {Img : Type} (env : Env Img) (o : RoopOptions)
    (ht : o.task_id ≠ "") (hclean : ∀ c ∈ o.task_id.data, c ≠ '.') :
    ∀ p ∈ writtenFiles (run_roop_on_single_image env o).1,
      ∃ K e, (K = "source/face/" ∨ K = "source/swap/" ∨ K = "output/") ∧
        (e = "" ∨ ∃ x, e = "." ++ x) ∧
        p = env.private_outdir ++ "/roop/" ++ K ++
          (dateStr env.now1 ++ ("/" ++ (o.task_id ++ e))) := by
  have mface : ∀ Y : String,
      ("/roop/source/" : String) ++ ("face/" ++ Y) = "/roop/source/face/" ++ Y := by
    intro Y
    rw [← String.append_assoc]
    exact congrArg (fun z => z ++ Y) (by decide)
  have mswap : ∀ Y : String,
      ("/roop/source/" : String) ++ ("swap/" ++ Y) = "/roop/source/swap/" ++ Y := by
    intro Y
    rw [← String.append_assoc]
    exact congrArg (fun z => z ++ Y) (by decide)
  have mface2 : ∀ Y : String,
      ("/roop/" : String) ++ ("source/face/" ++ Y) = "/roop/source/face/" ++ Y := by
    intro Y
    rw [← String.append_assoc]
    exact congrArg (fun z => z ++ Y) (by decide)
  have mswap2 : ∀ Y : String,
      ("/roop/" : String) ++ ("source/swap/" ++ Y) = "/roop/source/swap/" ++ Y := by
    intro Y
    rw [← String.append_assoc]
    exact congrArg (fun z => z ++ Y) (by decide)
  have mout : ∀ Y : String,
      ("/roop/" : String) ++ ("output/" ++ Y) = "/roop/output/" ++ Y := by
    intro Y
    rw [← String.append_assoc]
    exact congrArg (fun z => z ++ Y) (by decide)
  have hface : ∀ q ∈ writtenFiles (download_image_if_needed env o.source_image
      ("face/" ++ dateStr env.now1) (some o.task_id)).1,
      ∃ K e, (K = "source/face/" ∨ K = "source/swap/" ∨ K = "output/") ∧
        (e = "" ∨ ∃ x, e = "." ++ x) ∧
        q = env.private_outdir ++ "/roop/" ++ K ++
          (dateStr env.now1 ++ ("/" ++ (o.task_id ++ e))) := by
    intro q hq
    obtain ⟨e, hee, heq⟩ := diin_writes_form env o.source_image
      ("face/" ++ dateStr env.now1) o.task_id ht hclean q hq
    refine ⟨"source/face/", e, Or.inl rfl, hee, ?_⟩
    rw [heq]
    simp [String.append_assoc, mface, mface2]
  have hswapw : ∀ q ∈ writtenFiles (download_image_if_needed env o.swap_image
      ("swap/" ++ dateStr env.now1) (some o.task_id)).1,
      ∃ K e, (K = "source/face/" ∨ K = "source/swap/" ∨ K = "output/") ∧
        (e = "" ∨ ∃ x, e = "." ++ x) ∧
        q = env.private_outdir ++ "/roop/" ++ K ++
          (dateStr env.now1 ++ ("/" ++ (o.task_id ++ e))) := by
    intro q hq
    obtain ⟨e, hee, heq⟩ := diin_writes_form env o.swap_image
      ("swap/" ++ dateStr env.now1) o.task_id ht hclean q hq
    refine ⟨"source/swap/", e, Or.inr (Or.inl rfl), hee, ?_⟩
    rw [heq]
    simp [String.append_assoc, mswap, mswap2]
  intro p hp
  rcases run_trace_cases env o with hcase | hcase | hcase <;> rw [hcase] at hp
  · exact hface p hp
  · rw [writtenFiles_append] at hp
    rcases List.mem_append.mp hp with hp | hp
    · exact hface p hp
    · exact hswapw p hp
  · rw [writtenFiles_append, writtenFiles_append, writtenFiles_append] at hp
    have hg : writtenFiles (get_private_path env ("output/" ++ dateStr env.now1)
        (o.task_id ++ ".png")).2 = [] := by
      rw [get_private_path]
      by_cases he : env.fsExists (env.private_outdir ++ "/roop/" ++
          ("output/" ++ dateStr env.now1)) = true <;> simp [he, writtenFiles]
    rw [hg] at hp
    rcases List.mem_append.mp hp with hp | hp
    · rcases List.mem_append.mp hp with hp | hp
      · rcases List.mem_append.mp hp with hp | hp
        · exact hface p hp
        · exact hswapw p hp
      · simp at hp
    · simp [writtenFiles] at hp
      refine ⟨"output/", ".png", Or.inr (Or.inr rfl), Or.inr ⟨"png", rfl⟩, ?_⟩
      rw [hp, get_private_path]
      simp [String.append_assoc, mout]

/-- C9 counterexample: two fully processed requests with the distinct task
ids `"a"` and `"a.png"` both write the face input file
`<private>/roop/source/face/<date>/a.png` — the first because its payload is
sniffed as `png` and the extension is appended to the stem `a`, the second
because its payload's type cannot be sniffed and the file keeps the bare
name `a.png`. -/
theorem task_path_collision_cex :
    ("a" : String) ≠ "a.png"
  ∧ "/data/roop/source/face/2026-10-12/a.png" ∈
      writtenFiles (run_roop_on_single_image sampleEnv
        { task_id := "a", source_image := ⟨none, some "UE5H", none⟩,
          swap_image := ⟨none, some "UE5H", none⟩ }).1
  ∧ "/data/roop/source/face/2026-10-12/a.png" ∈
      writtenFiles (run_roop_on_single_image sampleEnv
        { task_id := "a.png", source_image := ⟨none, some "QQQQ", none⟩,
          swap_image := ⟨none, some "QQQQ", none⟩ }).1 := by
  refine ⟨by decide, by decide, by decide⟩

/-- C9 as amended: for two requests whose task ids are distinct, non-empty
and free of both `'.'` and `'/'`, every file path written while processing
the one is distinct from every file path written while processing the
other: all such paths are keyed by date and task-id stem, with face, swap
and output files in disjoint folders.  A `'.'` in an id breaks the claim
through extension sniffing (`task_path_collision_cex`); a `'/'` breaks it
through pathlib's join, whose absolute-path override and slash collapsing
can map distinct ids to one file (`pathJoin_absolute_override`).  On the
slash-free, dot-free domain the string concatenation in `get_private_path`
is exactly pathlib's join (`get_private_path_matches_pathlib`), so this
theorem speaks for the program itself there. -/
theorem distinct_task_ids_disjoint_paths {Img : Type} (env : Env Img)
    (o1 o2 : RoopOptions)
    (ht1 : o1.task_id ≠ "") (ht2 : o2.task_id ≠ "")
    (hc1 : ∀ c ∈ o1.task_id.data, c ≠ '.') (hc2 : ∀ c ∈ o2.task_id.data, c ≠ '.')
    (hs1 : ∀ c ∈ o1.task_id.data, c ≠ '/') (hs2 : ∀ c ∈ o2.task_id.data, c ≠ '/')
    (hne : o1.task_id ≠ o2.task_id) :
    ∀ p ∈ writtenFiles (run_roop_on_single_image env o1).1,
      p ∉ writtenFiles (run_roop_on_single_image env o2).1 := by
  intro p hp1 hp2
  obtain ⟨K1, e1, hK1, he1, hpeq1⟩ := run_writes_form env o1 ht1 hc1 p hp1
  obtain ⟨K2, e2, hK2, he2, hpeq2⟩ := run_writes_form env o2 ht2 hc2 p hp2
  have heq := hpeq1.symm.trans hpeq2
  have hsame : ∀ K : String,
      env.private_outdir ++ "/roop/" ++ K ++
          (dateStr env.now1 ++ ("/" ++ (o1.task_id ++ e1))) =
        env.private_outdir ++ "/roop/" ++ K ++
          (dateStr env.now1 ++ ("/" ++ (o2.task_id ++ e2))) → False := by
    intro K hK
    have hx1 := str_append_left_cancel hK
    have hx2 := str_append_left_cancel hx1
    have hx3 := str_append_left_cancel hx2
    exact hne (stem_eq hc1 hc2 he1 he2 hx3)
  rcases hK1 with rfl | rfl | rfl <;> rcases hK2 with rfl | rfl | rfl
  · exact hsame _ heq
  · exact ne_append_append (env.private_outdir ++ "/roop/") "source/face/" "source/swap/"
      _ _ 7 (by decide) (by decide) (by decide) heq
  · exact ne_append_append (env.private_outdir ++ "/roop/") "source/face/" "output/"
      _ _ 0 (by decide) (by decide) (by decide) heq
  · exact ne_append_append (env.private_outdir ++ "/roop/") "source/swap/" "source/face/"
      _ _ 7 (by decide) (by decide) (by decide) heq
  · exact hsame _ heq
  · exact ne_append_append (env.private_outdir ++ "/roop/") "source/swap/" "output/"
      _ _ 0 (by decide) (by decide) (by decide) heq
  · exact ne_append_append (env.private_outdir ++ "/roop/") "output/" "source/face/"
      _ _ 0 (by decide) (by decide) (by decide) heq
  · exact ne_append_append (env.private_outdir ++ "/roop/") "output/" "source/swap/"
      _ _ 0 (by decide) (by decide) (by decide) heq
  · exact hsame _ heq

theorem distinct_task_ids_disjoint_paths_witness :
    "/data/roop/source/face/2026-10-12/a.png" ∉
      writtenFiles (run_roop_on_single_image sampleEnv
        { task_id := "b", source_image := ⟨none, some "UE5H", none⟩,
          swap_image := ⟨none, some "UE5H", none⟩ }).1 :=
  distinct_task_ids_disjoint_paths sampleEnv
    { task_id := "a", source_image := ⟨none, some "UE5H", none⟩,
      swap_image := ⟨none, some "UE5H", none⟩ }
    { task_id := "b", source_image := ⟨none, some "UE5H", none⟩,
      swap_image := ⟨none, some "UE5H", none⟩ }
    (by decide) (by decide) (by decide) (by decide) (by decide) (by decide) (by decide)
    "/data/roop/source/face/2026-10-12/a.png" (by decide)

/-! ## Exactness of the modelled join on clean filenames -/

theorem splitSlash_no_sep (cs : List Char) (h : ∀ c ∈ cs, c ≠ '/') :
    splitSlash cs = [cs] := by
  induction cs with
  | nil => rfl
  | cons c rest ih =>
    have hc : ¬ (c = '/') := h c (by simp)
    have hr := ih fun x hx => h x (by simp [hx])
    simp [splitSlash, hr, hc]

theorem pathRoot_no_sep (t : String) (h0 : t ≠ "") (h : ∀ c ∈ t.data, c ≠ '/') :
    pathRoot t = "" := by
  rcases ht : t.data with _ | ⟨c, cs⟩
  · exact absurd (String.ext ht) h0
  · have hc : ¬ (c = '/') := h c (by rw [ht]; simp)
    simp [pathRoot, ht, hc]

theorem pathParts_clean (t : String) (h0 : t ≠ "") (hs : ∀ c ∈ t.data, c ≠ '/')
    (hd : ∀ c ∈ t.data, c ≠ '.') : pathParts t = [t] := by
  have hdot : t ≠ "." := fun hteq => hd '.' (by rw [hteq]; simp) rfl
  rw [pathParts, splitSlash_no_sep t.data hs]
  simp [h0, hdot]

/-- On a non-empty filename containing neither `'/'` nor `'.'`, pathlib's
join is exactly the string concatenation `base ++ "/" ++ t` that
`get_private_path` models. -/
theorem pathJoin_clean (base t : String) (h0 : t ≠ "") (hs : ∀ c ∈ t.data, c ≠ '/')
    (hd : ∀ c ∈ t.data, c ≠ '.') : pathJoin base t = base ++ "/" ++ t := by
  rw [pathJoin, if_pos (pathRoot_no_sep t h0 hs), pathParts_clean t h0 hs hd]
  rfl

/-- On the domain of the amended C9 claim (non-empty task ids free of `'/'`
and `'.'`), the path `get_private_path` computes coincides with the real
pathlib join `private_dir / filename`. -/
theorem get_private_path_matches_pathlib {Img : Type} (env : Env Img)
    (folder t : String) (h0 : t ≠ "") (hs : ∀ c ∈ t.data, c ≠ '/')
    (hd : ∀ c ∈ t.data, c ≠ '.') :
    (get_private_path env folder t).1 =
      pathJoin (env.private_outdir ++ "/roop/" ++ folder) t := by
  rw [pathJoin_clean _ t h0 hs hd, get_private_path]

/-- The case the concatenation model drops, shown on the faithful join: a
task id that is itself an absolute path replaces the private directory
entirely, so the ids `"b"` and `"/data/roop/source/face/2026-10-12/b"` are
mapped to the same file; doubled slashes collapse similarly.  This is why
the amended C9 claim excludes `'/'` from task ids. -/
theorem pathJoin_absolute_override :
    pathJoin "/data/roop/source/face/2026-10-12" "/data/roop/source/face/2026-10-12/b" =
      pathJoin "/data/roop/source/face/2026-10-12" "b"
  ∧ pathJoin "/data/roop/source/face/2026-10-12" "a//b" =
      pathJoin "/data/roop/source/face/2026-10-12" "a/b" := by
  refine ⟨by decide, by decide⟩
